import Mathlib

/-!
Shallow embedding of `src/app.py` (goodnotes2git): a one-directional sync
from a remote drive tree into a git working tree, with a 15-minute
staleness window, empty-folder markers, and change-gated commit/push.

Timestamps are modelled as `Int` seconds (UTC instants); the 15-minute
window is `windowSeconds = 900`.  Every call the Python code makes to
`datetime.now(...)` is modelled by reading a clock stream
`clock : Nat → Int` at a counter that increments at each file comparison,
mirroring the fact that the source re-evaluates `datetime.now` at every
comparison (src/app.py line 68).
-/

namespace Goodnotes2Git

/-- `timedelta(minutes=15)` in seconds. -/
def windowSeconds : Int := 15 * 60

/-- One entry of the global `UPDATED_FILES` list: the dict
`{"path": f"{path}/{item.name}", "id": item.id}` from src/app.py lines 74-77. -/
structure FileEntry where
  path : String
  id : String
deriving DecidableEq, Repr

mutual
/-- A remote drive item as the walk observes it: either a file facet
(`item.file` truthy, carrying a mime type) with
`item.last_modified_date_time`, or a folder facet (`item.folder` truthy).
A folder carries the result that the remote `children.get()` call for its
id would return. -/
inductive RItem where
  | file (id name : String) (lastModified : Int) (mimeType : String)
  | folder (id name : String) (listing : RListing)

/-- Result of a remote `children.get()` call: the returned children, or
`fail` when the call raises. -/
inductive RListing where
  | fail
  | ok (children : RItems)

/-- A remote listing's item sequence (`res.value`). -/
inductive RItems where
  | nil
  | cons (head : RItem) (tail : RItems)
end

/-- `item.name`. -/
def RItem.name : RItem → String
  | .file _ n _ _ => n
  | .folder _ n _ => n

/-- `len(res.value)` for a listing's item sequence. -/
def RItems.length : RItems → Nat
  | .nil => 0
  | .cons _ t => t.length + 1

/-- Concatenation of item sequences. -/
def RItems.append : RItems → RItems → RItems
  | .nil, ys => ys
  | .cons x xs, ys => .cons x (RItems.append xs ys)

/-- Structural induction for `RItems` alone. -/
theorem RItems.ind {motive : RItems → Prop} (hnil : motive .nil)
    (hcons : ∀ x xs, motive xs → motive (.cons x xs)) : ∀ items, motive items
  | .nil => hnil
  | .cons x xs => hcons x xs (RItems.ind hnil hcons xs)

/-- The mutable global state the walk threads: the `datetime.now` call
counter, `UPDATED_FILES` and `EMPTY_FOLDERS` (src/app.py lines 31-32). -/
structure WalkState where
  counter : Nat
  updatedFiles : List FileEntry
  emptyFolders : List String
deriving DecidableEq, Repr

/-- The state at the start of a run: both global lists empty. -/
def initState : WalkState := ⟨0, [], []⟩

/-- The `for item in res.value` loop body of `map_children`
(src/app.py lines 66-80), acting on the listed children of a folder:
a file is skipped when `item.last_modified_date_time < now - 15min`
(with `now` re-read from the clock at each comparison), otherwise one
entry is appended to `UPDATED_FILES`; a subfolder is recursed into
with path `path + '/' + item.name` — the recursive `map_children`
call lists its children (`Except.error` with the folder id when that
listing raises), records it in `EMPTY_FOLDERS` when the listing is
empty, and otherwise loops over the children. -/
def walkItems (clock : Nat → Int) (items : RItems) (path : String)
    (st : WalkState) : Except String WalkState :=
  match items with
  | .nil => .ok st
  | .cons (.file iid name lm _) rest =>
      if lm < clock st.counter - windowSeconds then
        walkItems clock rest path { st with counter := st.counter + 1 }
      else
        walkItems clock rest path
          { st with counter := st.counter + 1,
                    updatedFiles := st.updatedFiles ++ [⟨path ++ "/" ++ name, iid⟩] }
  | .cons (.folder fid _ .fail) _ => .error fid
  | .cons (.folder _ name (.ok children)) rest =>
      match (if children.length = 0 then
               Except.ok { st with
                 emptyFolders := st.emptyFolders ++ [path ++ "/" ++ name] }
             else
               walkItems clock children (path ++ "/" ++ name) st) with
      | .error e => .error e
      | .ok st' => walkItems clock rest path st'

/-- `map_children(drive_id, parent_item, path)` (src/app.py lines 58-80) for
a parent folder with identifier `parentId` whose `children.get()` call
returns `listing`: a raised listing call aborts the run carrying the folder
id; an empty listing appends `path` to `EMPTY_FOLDERS` and returns;
otherwise the children are iterated. -/
def mapChildren (clock : Nat → Int) (parentId : String)
    (listing : RListing) (path : String) (st : WalkState) :
    Except String WalkState :=
  match listing with
  | .fail => .error parentId
  | .ok children =>
      if children.length = 0 then
        .ok { st with emptyFolders := st.emptyFolders ++ [path] }
      else
        walkItems clock children path st

/-- Test of `item.name.startswith('ZZ')` (src/app.py line 107): whether the
string's first two characters are `'Z'`, `'Z'`. -/
def startsWithZZ (s : String) : Bool :=
  match s.data with
  | 'Z' :: 'Z' :: _ => true
  | _ => false

/-- Loop of `main()` over the root listing (src/app.py lines 105-111): any
root child whose name starts with `'ZZ'` is skipped; each remaining folder
child is recursed into via `map_children` with path
`f"./\x7bGIT_REPO_PATH\x7d/\x7bitem.name\x7d"`; root children of kind file
produce nothing (there is no file branch in `main`). -/
def walkRoot (clock : Nat → Int) (gitRepoPath : String) (items : RItems)
    (st : WalkState) : Except String WalkState :=
  match items with
  | .nil => .ok st
  | .cons item rest =>
      if startsWithZZ (RItem.name item) then
        walkRoot clock gitRepoPath rest st
      else
        match item with
        | .file _ _ _ _ => walkRoot clock gitRepoPath rest st
        | .folder fid name listing =>
            match mapChildren clock fid listing
                ("./" ++ gitRepoPath ++ "/" ++ name) st with
            | .error e => .error e
            | .ok st' => walkRoot clock gitRepoPath rest st'

/-- Externally observable repository and filesystem operations `main`
performs after the walk, in program order. -/
inductive Event where
  | clonedRepo
  | pulledRepo
  | fetchedContent (itemId : String)
  | wroteFile (path : String)
  | createdEmptyMarker (path : String)
  | readStatus
  | stagedAll
  | committed (message : String)
  | pushed
deriving DecidableEq, Repr

/-- Fixed commit message of src/app.py line 135. -/
def commitMessage : String := "Automated commit: Sync GoodNotes with Git"

/-- Trace of `fetch_repo()` (src/app.py lines 83-97): pull when a clone
already exists at `GIT_REPO_PATH`, clone otherwise. -/
def fetchRepoEvents (repoExists : Bool) : List Event :=
  if repoExists then [Event.pulledRepo] else [Event.clonedRepo]

/-- Trace of `create_file(path, item_id)` (src/app.py lines 45-49): fetch the
content by item id, then write the bytes at `path`. -/
def createFileEvents (f : FileEntry) : List Event :=
  [Event.fetchedContent f.id, Event.wroteFile f.path]

/-- Trace of `create_empty_folder(path)` (src/app.py lines 52-55): create the
directory and write a `.gitkeep` marker inside it. -/
def createEmptyFolderEvents (p : String) : List Event :=
  [Event.createdEmptyMarker p]

/-- Trace of the commit gate (src/app.py lines 127-138): read the
working-tree status (untracked and changed counts); when either count is
positive, stage everything, commit once with the fixed message, push once. -/
def gitFinalizeEvents (untracked changed : Nat) : List Event :=
  Event.readStatus ::
    (if untracked > 0 ∨ changed > 0 then
      [Event.stagedAll, Event.committed commitMessage, Event.pushed]
    else [])

/-- Model of `main()` (src/app.py lines 100-138).  Inputs: the clock stream,
`GIT_REPO_PATH`, `ROOT_DIR_ID`, the result of the root `children.get()` call
(`RListing.fail` when it raises), whether a clone already exists, and the
untracked and changed counts the working tree will report.  Output: the
run's event trace, or the identifier of the folder whose listing raised.
The walk fills `UPDATED_FILES` and `EMPTY_FOLDERS`; when both are empty
`main` returns before `fetch_repo` (src/app.py lines 113-115); otherwise it
fetches the repo, materializes every file then every empty-folder marker,
reads the status, and conditionally stages, commits and pushes. -/
def runMain (clock : Nat → Int) (gitRepoPath rootDirId : String)
    (rootListing : RListing) (repoExists : Bool)
    (untracked changed : Nat) : Except String (List Event) :=
  match rootListing with
  | .fail => .error rootDirId
  | .ok rootItems =>
      match walkRoot clock gitRepoPath rootItems initState with
      | .error fid => .error fid
      | .ok st =>
          if st.updatedFiles.length = 0 ∧ st.emptyFolders.length = 0 then
            .ok []
          else
            .ok (fetchRepoEvents repoExists
              ++ (st.updatedFiles.map createFileEvents).flatten
              ++ (st.emptyFolders.map createEmptyFolderEvents).flatten
              ++ gitFinalizeEvents untracked changed)

/-- Triple describing one file item the walk encounters: the local path the
walk maps it to, its id, and its last-modified instant. -/
structure EncFile where
  path : String
  id : String
  lastModified : Int
deriving DecidableEq, Repr

/-- All file items the `map_children` loop encounters below a listing, with
their mapped paths: the files listed in the current folder and, recursively,
the files in subfolders whose own listing is non-empty (a raised or empty
sub-listing contributes none). -/
def encFiles (path : String) : RItems → List EncFile
  | .nil => []
  | .cons (.file iid name lm _) rest =>
      ⟨path ++ "/" ++ name, iid, lm⟩ :: encFiles path rest
  | .cons (.folder _ _ .fail) rest => encFiles path rest
  | .cons (.folder _ name (.ok children)) rest =>
      (if children.length = 0 then []
       else encFiles (path ++ "/" ++ name) children) ++ encFiles path rest

/-- Freshness predicate of the claims: an encountered file yields a work item
if and only if `lastModified ≥ now - window`. -/
def freshEntry (now : Int) (e : EncFile) : Option FileEntry :=
  if now - windowSeconds ≤ e.lastModified then some ⟨e.path, e.id⟩ else none

/-- Path components joined with `'/'`. -/
def joinSlash : List String → String
  | [] => ""
  | [x] => x
  | x :: xs => x ++ "/" ++ joinSlash xs

/-- Modelled from the spec (section 8, fresh-file property): one `FetchFile`
entry per fresh file, at the path obtained by joining the given components,
the chain of ancestor folder names and the file's own name with `'/'`. -/
def specFresh (now : Int) (pfx : List String) : RItems → List FileEntry
  | .nil => []
  | .cons (.file iid name lm _) rest =>
      (if now - windowSeconds ≤ lm then
        [⟨joinSlash (pfx ++ [name]), iid⟩] else []) ++ specFresh now pfx rest
  | .cons (.folder _ _ .fail) rest => specFresh now pfx rest
  | .cons (.folder _ name (.ok children)) rest =>
      (if children.length = 0 then []
       else specFresh now (pfx ++ [name]) children) ++ specFresh now pfx rest

/-- Fresh files contributed by one root child: a file child contributes
nothing, and a folder child contributes its fresh files below the path
components `["./" ++ gitRepoPath, name]`. -/
def specFreshRootItem (now : Int) (gitRepoPath : String) : RItem → List FileEntry
  | .file _ _ _ _ => []
  | .folder _ name listing =>
      match listing with
      | .fail => []
      | .ok children =>
          if children.length = 0 then []
          else specFresh now ["./" ++ gitRepoPath, name] children

/-- Spec reading of the whole run's fresh files: root children named with the
`'ZZ'` prefix are skipped and each remaining child contributes per
`specFreshRootItem`. -/
def specFreshRoot (now : Int) (gitRepoPath : String) : RItems → List FileEntry
  | .nil => []
  | .cons item rest =>
      (if startsWithZZ (RItem.name item) then []
       else specFreshRootItem now gitRepoPath item)
      ++ specFreshRoot now gitRepoPath rest

/-- Paths of the empty folders the `map_children` loop records below a
listing: a subfolder whose own listing is empty contributes its mapped path,
and a subfolder with a non-empty listing contributes recursively. -/
def encEmpty (path : String) : RItems → List String
  | .nil => []
  | .cons (.file _ _ _ _) rest => encEmpty path rest
  | .cons (.folder _ _ .fail) rest => encEmpty path rest
  | .cons (.folder _ name (.ok children)) rest =>
      (if children.length = 0 then [path ++ "/" ++ name]
       else encEmpty (path ++ "/" ++ name) children) ++ encEmpty path rest

/-- Identifier of the first folder whose `children.get()` call raises, in
the order the `map_children` loop reaches folders; `none` when every listing
the walk performs succeeds. -/
def firstFailItems : RItems → Option String
  | .nil => none
  | .cons (.file _ _ _ _) rest => firstFailItems rest
  | .cons (.folder fid _ .fail) _ => some fid
  | .cons (.folder _ _ (.ok children)) rest =>
      match (if children.length = 0 then none
             else firstFailItems children) with
      | some f => some f
      | none => firstFailItems rest

/-- Identifier of the first folder whose listing raises during a whole run,
following the root loop's order and its `'ZZ'` and non-folder skips. -/
def firstFailRoot : RItems → Option String
  | .nil => none
  | .cons item rest =>
      if startsWithZZ (RItem.name item) then firstFailRoot rest
      else
        match item with
        | .file _ _ _ _ => firstFailRoot rest
        | .folder fid _ .fail => some fid
        | .folder _ _ (.ok children) =>
            match (if children.length = 0 then none
                   else firstFailItems children) with
            | some f => some f
            | none => firstFailRoot rest

end Goodnotes2Git

namespace Goodnotes2Git

/-! ### Helper lemmas -/

theorem RItems.length_eq_zero {items : RItems} :
    items.length = 0 ↔ items = RItems.nil := by
  cases items <;> simp [RItems.length]

theorem joinSlash_cons_cons (x y : String) (ys : List String) :
    joinSlash (x :: y :: ys) = x ++ "/" ++ joinSlash (y :: ys) := rfl

theorem joinSlash_append (pfx : List String) (h : pfx ≠ []) (n : String) :
    joinSlash (pfx ++ [n]) = joinSlash pfx ++ "/" ++ n := by
  induction pfx with
  | nil => simp at h
  | cons x xs ih =>
      cases xs with
      | nil => rfl
      | cons y ys =>
          simp only [List.cons_append] at ih ⊢
          rw [joinSlash_cons_cons, ih (by simp), joinSlash_cons_cons]
          simp [String.append_assoc]

theorem walkItems_emptyFolders (clock : Nat → Int) (items : RItems)
    (path : String) (st : WalkState) :
    ∀ st', walkItems clock items path st = Except.ok st' →
      st'.emptyFolders = st.emptyFolders ++ encEmpty path items := by
  induction items, path, st using walkItems.induct clock with
  | case1 path st =>
      intro st' h
      rw [walkItems] at h
      cases h
      simp [encEmpty]
  | case2 path st iid name lm mimeType rest hc ih =>
      intro st' h
      rw [walkItems, if_pos hc] at h
      simpa [encEmpty] using ih st' h
  | case3 path st iid name lm mimeType rest hc ih =>
      intro st' h
      rw [walkItems, if_neg hc] at h
      simpa [encEmpty] using ih st' h
  | case4 path st fid name rest =>
      intro st' h
      rw [walkItems] at h
      simp at h
  | case5 path st fid name children rest e he ih =>
      intro st' h
      rw [walkItems] at h
      rw [he] at h
      simp at h
  | case6 path st fid name children rest st1 hst1 ih1 ih2 =>
      intro st' h
      rw [walkItems] at h
      rw [hst1] at h
      have h' : walkItems clock rest path st1 = Except.ok st' := h
      have h2 := ih2 st' h'
      by_cases hlen : children.length = 0
      · rw [if_pos hlen] at hst1
        injection hst1 with hst1
        rw [h2, ← hst1]
        have := RItems.length_eq_zero.mp hlen
        subst this
        simp [encEmpty, RItems.length]
      · rw [if_neg hlen] at hst1
        have h1 := ih1 st1 hst1
        rw [h2, h1]
        simp [encEmpty, hlen, List.append_assoc]

theorem walkItems_updatedFiles (now : Int) (items : RItems)
    (path : String) (st : WalkState) :
    ∀ st', walkItems (fun _ => now) items path st = Except.ok st' →
      st'.updatedFiles =
        st.updatedFiles ++ (encFiles path items).filterMap (freshEntry now) := by
  induction items, path, st using walkItems.induct (fun _ => now) with
  | case1 path st =>
      intro st' h
      rw [walkItems] at h
      cases h
      simp [encFiles]
  | case2 path st iid name lm mimeType rest hc ih =>
      intro st' h
      rw [walkItems, if_pos hc] at h
      have hlt : lm < now - windowSeconds := hc
      have h2 := ih st' h
      simp [encFiles, freshEntry, h2, not_le.mpr hlt]
  | case3 path st iid name lm mimeType rest hc ih =>
      intro st' h
      rw [walkItems, if_neg hc] at h
      have hle : now - windowSeconds ≤ lm := not_lt.mp hc
      have h2 := ih st' h
      simp [encFiles, freshEntry, h2, hle, List.append_assoc]
  | case4 path st fid name rest =>
      intro st' h
      rw [walkItems] at h
      simp at h
  | case5 path st fid name children rest e he ih =>
      intro st' h
      rw [walkItems] at h
      rw [he] at h
      simp at h
  | case6 path st fid name children rest st1 hst1 ih1 ih2 =>
      intro st' h
      rw [walkItems] at h
      rw [hst1] at h
      have h' : walkItems (fun _ => now) rest path st1 = Except.ok st' := h
      have h2 := ih2 st' h'
      by_cases hlen : children.length = 0
      · rw [if_pos hlen] at hst1
        injection hst1 with hst1
        rw [h2, ← hst1]
        have := RItems.length_eq_zero.mp hlen
        subst this
        simp [encFiles, RItems.length]
      · rw [if_neg hlen] at hst1
        have h1 := ih1 st1 hst1
        rw [h2, h1]
        simp [encFiles, hlen, List.filterMap_append, List.append_assoc]

theorem encFiles_specFresh (now : Int) (pfx : List String) (items : RItems) :
    pfx ≠ [] →
      (encFiles (joinSlash pfx) items).filterMap (freshEntry now) =
        specFresh now pfx items := by
  induction pfx, items using specFresh.induct now with
  | case1 pfx =>
      intro h
      simp [encFiles, specFresh]
  | case2 pfx iid name lm mimeType rest ih =>
      intro h
      rw [encFiles, specFresh, List.filterMap_cons, ih h,
          joinSlash_append pfx h name]
      by_cases hle : now - windowSeconds ≤ lm <;> simp [freshEntry, hle]
  | case3 pfx fid name rest ih =>
      intro h
      rw [encFiles, specFresh, ih h]
  | case4 pfx fid name children rest ih1 ih2 =>
      intro h
      by_cases hlen : children.length = 0
      · simp [encFiles, specFresh, hlen, ih2 h]
      · have h41 : encFiles (joinSlash pfx ++ "/" ++ name) children =
            encFiles (joinSlash (pfx ++ [name])) children := by
          rw [joinSlash_append pfx h name]
        rw [encFiles, specFresh, if_neg hlen, if_neg hlen,
            List.filterMap_append, ih2 h, h41, ih1 (by simp)]

theorem mem_encEmpty (q : String) (path : String) (items : RItems) :
    q ∈ encEmpty path items → ∃ s, q = path ++ "/" ++ s := by
  induction path, items using encEmpty.induct with
  | case1 path =>
      intro h
      simp [encEmpty] at h
  | case2 path iid name lm mimeType rest ih =>
      intro h
      rw [encEmpty] at h
      exact ih h
  | case3 path fid name rest ih =>
      intro h
      rw [encEmpty] at h
      exact ih h
  | case4 path fid name children rest ih1 ih2 =>
      intro h
      rw [encEmpty] at h
      by_cases hlen : children.length = 0
      · rw [if_pos hlen] at h
        rcases List.mem_append.mp h with h1 | h2
        · simp at h1
          exact ⟨name, h1⟩
        · exact ih2 h2
      · rw [if_neg hlen] at h
        rcases List.mem_append.mp h with h1 | h2
        · obtain ⟨s, hs⟩ := ih1 h1
          refine ⟨name ++ "/" ++ s, ?_⟩
          rw [hs]
          simp [String.append_assoc]
        · exact ih2 h2

theorem walkItems_error_iff (clock : Nat → Int) (items : RItems)
    (path : String) (st : WalkState) :
    ∀ f, walkItems clock items path st = Except.error f ↔
      firstFailItems items = some f := by
  induction items, path, st using walkItems.induct clock with
  | case1 path st =>
      intro f
      rw [walkItems, firstFailItems]
      simp
  | case2 path st iid name lm mimeType rest hc ih =>
      intro f
      rw [walkItems, if_pos hc, firstFailItems]
      exact ih f
  | case3 path st iid name lm mimeType rest hc ih =>
      intro f
      rw [walkItems, if_neg hc, firstFailItems]
      exact ih f
  | case4 path st fid name rest =>
      intro f
      rw [walkItems, firstFailItems]
      simp
  | case5 path st fid name children rest e he ih =>
      intro f
      rw [walkItems, firstFailItems]
      rw [he]
      by_cases hlen : children.length = 0
      · rw [if_pos hlen] at he
        cases he
      · rw [if_neg hlen] at he
        have h1 := (ih e).mp he
        rw [if_neg hlen, h1]
        simp
  | case6 path st fid name children rest st1 hst1 ih1 ih2 =>
      intro f
      rw [walkItems, firstFailItems]
      rw [hst1]
      by_cases hlen : children.length = 0
      · rw [if_pos hlen]
        exact ih2 f
      · rw [if_neg hlen] at hst1 ⊢
        have hnone : firstFailItems children = none := by
          cases hff : firstFailItems children with
          | none => rfl
          | some g =>
              have hcon := (ih1 g).mpr hff
              rw [hcon] at hst1
              cases hst1
        rw [hnone]
        exact ih2 f

theorem walkRoot_cons_skip (clock : Nat → Int) (repo : String) (item : RItem)
    (rest : RItems) (st : WalkState)
    (h : startsWithZZ (RItem.name item) = true) :
    walkRoot clock repo (RItems.cons item rest) st =
      walkRoot clock repo rest st := by
  cases item with
  | file iid name lm mimeType => rw [walkRoot, if_pos h]
  | folder fid name listing => rw [walkRoot, if_pos h]

theorem firstFailRoot_cons_skip (item : RItem) (rest : RItems)
    (h : startsWithZZ (RItem.name item) = true) :
    firstFailRoot (RItems.cons item rest) = firstFailRoot rest := by
  cases item with
  | file iid name lm mimeType => rw [firstFailRoot, if_pos h]
  | folder fid name listing =>
      cases listing with
      | fail => rw [firstFailRoot, if_pos h]
      | ok children => rw [firstFailRoot, if_pos h]

theorem specFreshRoot_cons (now : Int) (repo : String) (item : RItem)
    (rest : RItems) :
    specFreshRoot now repo (RItems.cons item rest) =
      (if startsWithZZ (RItem.name item) then []
       else specFreshRootItem now repo item) ++ specFreshRoot now repo rest := by
  rw [specFreshRoot]

theorem walkRoot_updatedFiles (now : Int) (repo : String) (items : RItems) :
    ∀ st st', walkRoot (fun _ => now) repo items st = Except.ok st' →
      st'.updatedFiles = st.updatedFiles ++ specFreshRoot now repo items := by
  induction items using RItems.ind with
  | hnil =>
      intro st st' h
      rw [walkRoot] at h
      cases h
      simp [specFreshRoot]
  | hcons item rest ih =>
      intro st st' h
      rw [specFreshRoot_cons]
      by_cases hzz : startsWithZZ (RItem.name item) = true
      · rw [walkRoot_cons_skip _ _ _ _ _ hzz] at h
        simp [hzz, ih st st' h]
      · cases item with
        | file iid name lm mimeType =>
            rw [walkRoot, if_neg hzz] at h
            have h' : walkRoot (fun _ => now) repo rest st = Except.ok st' := h
            rw [Bool.not_eq_true] at hzz
            simp [specFreshRootItem, hzz, ih st st' h']
        | folder fid name listing =>
            rw [walkRoot, if_neg hzz] at h
            rw [Bool.not_eq_true] at hzz
            cases hmc : mapChildren (fun _ => now) fid listing
                ("./" ++ repo ++ "/" ++ name) st with
            | error e =>
                rw [hmc] at h
                simp at h
            | ok st1 =>
                rw [hmc] at h
                have h' : walkRoot (fun _ => now) repo rest st1 =
                    Except.ok st' := h
                have h2 := ih st1 st' h'
                cases listing with
                | fail => simp [mapChildren] at hmc
                | ok children =>
                    by_cases hlen : children.length = 0
                    · rw [mapChildren, if_pos hlen] at hmc
                      injection hmc with hmc
                      rw [h2, ← hmc]
                      simp [specFreshRootItem, hzz, hlen]
                    · rw [mapChildren, if_neg hlen] at hmc
                      have h1 := walkItems_updatedFiles now children
                        ("./" ++ repo ++ "/" ++ name) st st1 hmc
                      rw [h2, h1]
                      have hjoin : ("./" ++ repo ++ "/" ++ name) =
                          joinSlash ["./" ++ repo, name] := rfl
                      rw [hjoin, encFiles_specFresh now ["./" ++ repo, name]
                        children (by simp)]
                      simp [specFreshRootItem, hzz, hlen, List.append_assoc]

theorem walkRoot_error_iff (clock : Nat → Int) (repo : String)
    (items : RItems) :
    ∀ st f, walkRoot clock repo items st = Except.error f ↔
      firstFailRoot items = some f := by
  induction items using RItems.ind with
  | hnil =>
      intro st f
      rw [walkRoot, firstFailRoot]
      simp
  | hcons item rest ih =>
      intro st f
      by_cases hzz : startsWithZZ (RItem.name item) = true
      · rw [walkRoot_cons_skip _ _ _ _ _ hzz, firstFailRoot_cons_skip _ _ hzz]
        exact ih st f
      · cases item with
        | file iid name lm mimeType =>
            rw [walkRoot, if_neg hzz, firstFailRoot, if_neg hzz]
            exact ih st f
        | folder fid name listing =>
            rw [walkRoot, if_neg hzz]
            cases listing with
            | fail =>
                rw [firstFailRoot, if_neg hzz]
                simp [mapChildren]
            | ok children =>
                rw [firstFailRoot, if_neg hzz]
                by_cases hlen : children.length = 0
                · rw [mapChildren, if_pos hlen, if_pos hlen]
                  exact ih _ f
                · rw [mapChildren, if_neg hlen, if_neg hlen]
                  cases hw : walkItems clock children
                      ("./" ++ repo ++ "/" ++ name) st with
                  | error e =>
                      have he := (walkItems_error_iff clock children
                        ("./" ++ repo ++ "/" ++ name) st e).mp hw
                      rw [he]
                      simp
                  | ok st1 =>
                      have hnone : firstFailItems children = none := by
                        cases hff : firstFailItems children with
                        | none => rfl
                        | some g =>
                            have hcon := (walkItems_error_iff clock children
                              ("./" ++ repo ++ "/" ++ name) st g).mpr hff
                            rw [hcon] at hw
                            cases hw
                      rw [hnone]
                      exact ih st1 f

/-! ### Event-trace helper lemmas -/

theorem mem_fetchRepoEvents {e : Event} {re : Bool}
    (h : e ∈ fetchRepoEvents re) :
    e = Event.pulledRepo ∨ e = Event.clonedRepo := by
  cases re <;> simp [fetchRepoEvents] at h <;> simp [h]

theorem mem_flatten_createFileEvents {e : Event} {l : List FileEntry}
    (h : e ∈ (l.map createFileEvents).flatten) :
    (∃ s, e = Event.fetchedContent s) ∨ ∃ s, e = Event.wroteFile s := by
  simp only [List.mem_flatten, List.mem_map] at h
  obtain ⟨es, ⟨f, hf, hes⟩, hm⟩ := h
  rw [← hes] at hm
  simp [createFileEvents] at hm
  rcases hm with h1 | h1
  · exact Or.inl ⟨f.id, h1⟩
  · exact Or.inr ⟨f.path, h1⟩

theorem mem_flatten_createEmptyFolderEvents {e : Event} {l : List String}
    (h : e ∈ (l.map createEmptyFolderEvents).flatten) :
    ∃ s, e = Event.createdEmptyMarker s := by
  simp only [List.mem_flatten, List.mem_map] at h
  obtain ⟨es, ⟨q, hq, hes⟩, hm⟩ := h
  rw [← hes] at hm
  simp [createEmptyFolderEvents] at hm
  exact ⟨q, hm⟩

theorem wroteFile_mem_flatten {f : FileEntry} {l : List FileEntry}
    (h : f ∈ l) :
    Event.wroteFile f.path ∈ (l.map createFileEvents).flatten := by
  simp only [List.mem_flatten, List.mem_map]
  exact ⟨createFileEvents f, ⟨f, h, rfl⟩, by simp [createFileEvents]⟩

theorem marker_mem_flatten {q : String} {l : List String} (h : q ∈ l) :
    Event.createdEmptyMarker q ∈ (l.map createEmptyFolderEvents).flatten := by
  simp only [List.mem_flatten, List.mem_map]
  exact ⟨createEmptyFolderEvents q, ⟨q, h, rfl⟩, by simp [createEmptyFolderEvents]⟩

theorem count_pre_eq_zero (re : Bool) (l1 : List FileEntry) (l2 : List String)
    (e : Event)
    (h1 : e ≠ Event.pulledRepo) (h2 : e ≠ Event.clonedRepo)
    (h3 : ∀ s, e ≠ Event.fetchedContent s) (h4 : ∀ s, e ≠ Event.wroteFile s)
    (h5 : ∀ s, e ≠ Event.createdEmptyMarker s) :
    (fetchRepoEvents re).count e = 0 ∧
      ((l1.map createFileEvents).flatten).count e = 0 ∧
      ((l2.map createEmptyFolderEvents).flatten).count e = 0 := by
  refine ⟨?_, ?_, ?_⟩ <;> rw [List.count_eq_zero]
  · intro hm
    rcases mem_fetchRepoEvents hm with h | h
    exacts [h1 h, h2 h]
  · intro hm
    rcases mem_flatten_createFileEvents hm with ⟨s, hs⟩ | ⟨s, hs⟩
    exacts [h3 s hs, h4 s hs]
  · intro hm
    obtain ⟨s, hs⟩ := mem_flatten_createEmptyFolderEvents hm
    exact h5 s hs

theorem clean_trace_no_mutation (re : Bool) (l1 : List FileEntry)
    (l2 : List String) (u c : Nat) (hclean : ¬(u > 0 ∨ c > 0)) (e : Event)
    (hm : e ∈ fetchRepoEvents re ++ (l1.map createFileEvents).flatten ++
      (l2.map createEmptyFolderEvents).flatten ++ gitFinalizeEvents u c) :
    e ≠ Event.stagedAll ∧ (∀ m, e ≠ Event.committed m) ∧ e ≠ Event.pushed := by
  simp only [List.mem_append] at hm
  rcases hm with ((hm | hm) | hm) | hm
  · rcases mem_fetchRepoEvents hm with h1 | h1 <;> subst h1 <;>
      exact ⟨by simp, by simp, by simp⟩
  · rcases mem_flatten_createFileEvents hm with ⟨q, hq⟩ | ⟨q, hq⟩ <;> subst hq <;>
      exact ⟨by simp, by simp, by simp⟩
  · obtain ⟨q, hq⟩ := mem_flatten_createEmptyFolderEvents hm
    subst hq
    exact ⟨by simp, by simp, by simp⟩
  · rw [gitFinalizeEvents, if_neg hclean] at hm
    simp at hm
    subst hm
    exact ⟨by simp, by simp, by simp⟩

/-! ### Claims -/

/-- C1: during the walk of a folder's listing, a file whose last-modified
instant is strictly earlier than `now - 15min` yields no `UPDATED_FILES`
entry, and an encountered file yields one entry exactly when
`lastModified ≥ now - 15min`: with a constant clock `now`, the entries
produced by `map_children` are precisely the encountered files filtered by
the freshness predicate `freshEntry`. -/
theorem mapChildren_fresh_filter (now : Int) (fid path : String)
    (children : RItems) (st' : WalkState)
    (h : mapChildren (fun _ => now) fid (RListing.ok children) path initState =
      Except.ok st') :
    st'.updatedFiles = (encFiles path children).filterMap (freshEntry now) := by
  rw [mapChildren] at h
  by_cases hlen : children.length = 0
  · rw [if_pos hlen] at h
    injection h with h
    have := RItems.length_eq_zero.mp hlen
    subst this
    rw [← h]
    simp [initState, encFiles]
  · rw [if_neg hlen] at h
    have h2 := walkItems_updatedFiles now children path initState st' h
    simpa [initState] using h2

/-- Witness for C1: a fresh file (modified at the reference instant) is
emitted and a stale one (modified 1000 seconds before) is not. -/
theorem mapChildren_fresh_filter_concrete :
    (WalkState.mk 2 [⟨"p/fresh.txt", "a"⟩] []).updatedFiles =
      (encFiles "p" (RItems.cons (RItem.file "a" "fresh.txt" 0 "t")
        (RItems.cons (RItem.file "b" "old.txt" (-1000) "t")
          RItems.nil))).filterMap (freshEntry 0) :=
  mapChildren_fresh_filter 0 "f" "p"
    (RItems.cons (RItem.file "a" "fresh.txt" 0 "t")
      (RItems.cons (RItem.file "b" "old.txt" (-1000) "t") RItems.nil))
    (WalkState.mk 2 [⟨"p/fresh.txt", "a"⟩] []) rfl

/-- C2: when the whole run's walk succeeds with a constant clock `now`, the
`UPDATED_FILES` list holds exactly one entry per fresh file of the traversed
tree, at the path obtained by joining `"./" ++ GIT_REPO_PATH`, the chain of
ancestor folder names and the file's own name with `'/'` (per
`specFreshRoot`/`specFresh`, whose paths are built with `joinSlash`). -/
theorem walkRoot_fresh_exactly_once (now : Int) (repo : String)
    (items : RItems) (st' : WalkState)
    (h : walkRoot (fun _ => now) repo items initState = Except.ok st') :
    st'.updatedFiles = specFreshRoot now repo items := by
  have h2 := walkRoot_updatedFiles now repo items initState st' h
  simpa [initState] using h2

/-- Witness for C2: a run over a root folder `A` holding a fresh file and a
subfolder `B` holding another fresh file emits both, at the joined paths. -/
theorem walkRoot_fresh_exactly_once_concrete :
    (WalkState.mk 2 [⟨"./r/A/n.txt", "i"⟩, ⟨"./r/A/B/m.txt", "j"⟩] []).updatedFiles =
      specFreshRoot 0 "r"
        (RItems.cons (RItem.folder "a" "A" (RListing.ok
          (RItems.cons (RItem.file "i" "n.txt" 0 "t")
            (RItems.cons (RItem.folder "b" "B" (RListing.ok
              (RItems.cons (RItem.file "j" "m.txt" 5 "t") RItems.nil)))
              RItems.nil)))) RItems.nil) :=
  walkRoot_fresh_exactly_once 0 "r"
    (RItems.cons (RItem.folder "a" "A" (RListing.ok
      (RItems.cons (RItem.file "i" "n.txt" 0 "t")
        (RItems.cons (RItem.folder "b" "B" (RListing.ok
          (RItems.cons (RItem.file "j" "m.txt" 5 "t") RItems.nil)))
          RItems.nil)))) RItems.nil)
    (WalkState.mk 2 [⟨"./r/A/n.txt", "i"⟩, ⟨"./r/A/B/m.txt", "j"⟩] []) rfl

/-- C3: a folder whose listing is empty yields exactly one `EMPTY_FOLDERS`
entry for its mapped path and no `UPDATED_FILES` entry (the resulting state
is exactly the marker state), while a folder whose listing is non-empty
never records its own path in `EMPTY_FOLDERS` — emptiness is decided by the
listing having zero children, not by how many children were stale. -/
theorem mapChildren_empty_iff_marker (clock : Nat → Int) (fid path : String)
    (children : RItems) :
    mapChildren clock fid (RListing.ok RItems.nil) path initState =
        Except.ok (WalkState.mk 0 [] [path]) ∧
      (children.length ≠ 0 →
        ∀ st', mapChildren clock fid (RListing.ok children) path initState =
            Except.ok st' →
          path ∉ st'.emptyFolders) := by
  constructor
  · rw [mapChildren]
    simp [initState, RItems.length]
  · intro hlen st' h
    rw [mapChildren, if_neg hlen] at h
    have hemp := walkItems_emptyFolders clock children path initState st' h
    rw [hemp]
    intro hmem
    simp only [initState, List.nil_append] at hmem
    obtain ⟨sfx, hs⟩ := mem_encEmpty path path children hmem
    have hlen1 : ("/" : String).length = 1 := rfl
    have hlen2 : path.length = path.length + 1 + sfx.length := by
      conv_lhs => rw [hs]
      simp [String.length_append, hlen1]
    omega

/-- Witness for C3: the empty-listing half at a concrete path, and the
non-empty half on a folder whose single file child is stale — the folder
still produces no empty marker. -/
theorem mapChildren_empty_iff_marker_concrete :
    mapChildren (fun _ => 0) "f" (RListing.ok RItems.nil) "p" initState =
        Except.ok (WalkState.mk 0 [] ["p"]) ∧
      "p" ∉ (WalkState.mk 1 [] [] : WalkState).emptyFolders :=
  ⟨(mapChildren_empty_iff_marker (fun _ => 0) "f" "p" RItems.nil).1,
    (mapChildren_empty_iff_marker (fun _ => 0) "f" "p"
        (RItems.cons (RItem.file "b" "old.txt" (-10000) "t") RItems.nil)).2
      (by decide) (WalkState.mk 1 [] []) (by rfl)⟩

/-- C4 counterexample: a folder named `ZZ_Sub` nested below a non-archived
root folder is walked — its fresh file descendant produces a work item, so a
`'ZZ'`-named folder at depth two is not excluded from traversal. -/
theorem deep_archive_folder_traversed :
    walkRoot (fun _ => 0) "repo"
      (RItems.cons (RItem.folder "a" "A" (RListing.ok
        (RItems.cons (RItem.folder "z" "ZZ_Sub" (RListing.ok
          (RItems.cons (RItem.file "i" "f.txt" 0 "text/plain") RItems.nil)))
          RItems.nil))) RItems.nil) initState =
      Except.ok (WalkState.mk 1 [⟨"./repo/A/ZZ_Sub/f.txt", "i"⟩] []) := rfl

/-- C4 (amended): only a root-level child whose name begins with `'ZZ'` is
excluded from traversal entirely — the run proceeds exactly as if that child
were absent from the root listing, so it is never walked, produces no work
items, and is never counted toward emptiness. -/
theorem walkRoot_skips_root_archive_child (clock : Nat → Int) (repo : String)
    (item : RItem) (rest : RItems) (st : WalkState)
    (h : startsWithZZ (RItem.name item) = true) :
    walkRoot clock repo (RItems.cons item rest) st =
      walkRoot clock repo rest st :=
  walkRoot_cons_skip clock repo item rest st h

/-- Witness for C4 (amended): a root child `ZZ_Arch` is skipped. -/
theorem walkRoot_skips_root_archive_child_concrete :
    walkRoot (fun _ => 0) "r"
        (RItems.cons (RItem.folder "z" "ZZ_Arch" (RListing.ok
          (RItems.cons (RItem.file "i" "f" 0 "t") RItems.nil)))
          RItems.nil) initState =
      walkRoot (fun _ => 0) "r" RItems.nil initState :=
  walkRoot_skips_root_archive_child (fun _ => 0) "r"
    (RItem.folder "z" "ZZ_Arch" (RListing.ok
      (RItems.cons (RItem.file "i" "f" 0 "t") RItems.nil)))
    RItems.nil initState rfl

/-- C5: a root-level child whose name begins with `'ZZ'`, wherever it sits
in the root listing, contributes nothing to the run: the walk result equals
the walk of the listing with that child removed, so neither it nor any of
its descendants produce an `UPDATED_FILES` or `EMPTY_FOLDERS` entry. -/
theorem walkRoot_archive_child_contributes_nothing (clock : Nat → Int)
    (repo : String) (pre : RItems) (item : RItem) (post : RItems)
    (st : WalkState) (h : startsWithZZ (RItem.name item) = true) :
    walkRoot clock repo (RItems.append pre (RItems.cons item post)) st =
      walkRoot clock repo (RItems.append pre post) st := by
  induction pre using RItems.ind generalizing st with
  | hnil => simpa [RItems.append] using walkRoot_cons_skip clock repo item post st h
  | hcons p ps ih =>
      rw [show RItems.append (RItems.cons p ps) (RItems.cons item post) =
          RItems.cons p (RItems.append ps (RItems.cons item post)) from rfl,
        show RItems.append (RItems.cons p ps) post =
          RItems.cons p (RItems.append ps post) from rfl]
      cases p with
      | file iid name lm mimeType =>
          rw [walkRoot, walkRoot]
          by_cases hzz : startsWithZZ (RItem.name
              (RItem.file iid name lm mimeType)) = true
          · rw [if_pos hzz, if_pos hzz]
            exact ih st
          · rw [if_neg hzz, if_neg hzz]
            exact ih st
      | folder fid name listing =>
          rw [walkRoot, walkRoot]
          by_cases hzz : startsWithZZ (RItem.name
              (RItem.folder fid name listing)) = true
          · rw [if_pos hzz, if_pos hzz]
            exact ih st
          · rw [if_neg hzz, if_neg hzz]
            cases hmc : mapChildren clock fid listing
                ("./" ++ repo ++ "/" ++ name) st with
            | error e => rfl
            | ok st1 => exact ih st1

/-- Witness for C5: a run whose root listing holds `A` then `ZZ_Arch`
equals the run over `A` alone. -/
theorem walkRoot_archive_child_contributes_nothing_concrete :
    walkRoot (fun _ => 0) "r"
        (RItems.append
          (RItems.cons (RItem.folder "a" "A" (RListing.ok RItems.nil))
            RItems.nil)
          (RItems.cons (RItem.folder "z" "ZZ_Arch" (RListing.ok
            (RItems.cons (RItem.file "i" "f" 0 "t") RItems.nil)))
            RItems.nil)) initState =
      walkRoot (fun _ => 0) "r"
        (RItems.append
          (RItems.cons (RItem.folder "a" "A" (RListing.ok RItems.nil))
            RItems.nil) RItems.nil) initState :=
  walkRoot_archive_child_contributes_nothing (fun _ => 0) "r"
    (RItems.cons (RItem.folder "a" "A" (RListing.ok RItems.nil)) RItems.nil)
    (RItem.folder "z" "ZZ_Arch" (RListing.ok
      (RItems.cons (RItem.file "i" "f" 0 "t") RItems.nil)))
    RItems.nil initState rfl

/-- C6: the reference instant is NOT computed once per run — the source
re-evaluates `datetime.now` at every file comparison (src/app.py line 68),
so two files with the same last-modified instant in one traversal can get
different verdicts: with the clock returning 900 at the first comparison and
901 at the second, the first file (boundary-fresh) is emitted and the
second, identically timestamped file is skipped. -/
theorem walkItems_moving_now_distinct_verdicts :
    walkItems (fun k => if k = 0 then (900 : Int) else 901)
      (RItems.cons (RItem.file "a" "f1.txt" 0 "t")
        (RItems.cons (RItem.file "b" "f2.txt" 0 "t") RItems.nil)) "p"
      initState =
      Except.ok (WalkState.mk 2 [⟨"p/f1.txt", "a"⟩] []) := rfl

/-- C7: in any successful run that reads the working-tree status, the staged
/ commit / push tail is driven exactly by the status counts: when
`untracked > 0 ∨ changed > 0`, the trace holds exactly one stage-all, one
commit with the fixed message and one push; when both counts are zero, no
stage, commit or push event occurs at all. -/
theorem runMain_commit_push_iff_dirty (clock : Nat → Int)
    (repo rootId : String) (rootListing : RListing) (re : Bool)
    (u c : Nat) (evs : List Event)
    (h : runMain clock repo rootId rootListing re u c = Except.ok evs)
    (hr : Event.readStatus ∈ evs) :
    if u > 0 ∨ c > 0 then
      evs.count Event.stagedAll = 1 ∧
        evs.count (Event.committed commitMessage) = 1 ∧
        evs.count Event.pushed = 1
    else
      Event.stagedAll ∉ evs ∧ (∀ m, Event.committed m ∉ evs) ∧
        Event.pushed ∉ evs := by
  cases rootListing with
  | fail =>
      rw [runMain] at h
      cases h
  | ok rootItems =>
      cases hw : walkRoot clock repo rootItems initState with
      | error f =>
          rw [runMain] at h
          rw [hw] at h
          exact absurd h (by simp)
      | ok st =>
          simp only [runMain, hw] at h
          by_cases hempty : st.updatedFiles.length = 0 ∧
              st.emptyFolders.length = 0
          · rw [if_pos hempty] at h
            injection h with h
            rw [← h] at hr
            simp at hr
          · rw [if_neg hempty] at h
            injection h with h
            rw [← h]
            by_cases hdirty : u > 0 ∨ c > 0
            · rw [if_pos hdirty]
              obtain ⟨cs1, cs2, cs3⟩ := count_pre_eq_zero re st.updatedFiles
                st.emptyFolders Event.stagedAll (by simp) (by simp) (by simp)
                (by simp) (by simp)
              obtain ⟨cc1, cc2, cc3⟩ := count_pre_eq_zero re st.updatedFiles
                st.emptyFolders (Event.committed commitMessage) (by simp)
                (by simp) (by simp) (by simp) (by simp)
              obtain ⟨cp1, cp2, cp3⟩ := count_pre_eq_zero re st.updatedFiles
                st.emptyFolders Event.pushed (by simp) (by simp) (by simp)
                (by simp) (by simp)
              refine ⟨?_, ?_, ?_⟩ <;>
                simp [List.count_append, cs1, cs2, cs3, cc1, cc2, cc3, cp1,
                  cp2, cp3, gitFinalizeEvents, hdirty, List.count_cons]
            · rw [if_neg hdirty]
              exact ⟨fun hm =>
                  (clean_trace_no_mutation re _ _ u c hdirty _ hm).1 rfl,
                fun m hm =>
                  (clean_trace_no_mutation re _ _ u c hdirty _ hm).2.1 m rfl,
                fun hm =>
                  (clean_trace_no_mutation re _ _ u c hdirty _ hm).2.2 rfl⟩

/-- Witness for C7: a dirty run (one untracked file) over a root with one
empty folder stages, commits and pushes exactly once. -/
theorem runMain_commit_push_iff_dirty_concrete :
    if (1 : Nat) > 0 ∨ (0 : Nat) > 0 then
      ([Event.pulledRepo, Event.createdEmptyMarker "./repo/A",
          Event.readStatus, Event.stagedAll, Event.committed commitMessage,
          Event.pushed].count Event.stagedAll = 1) ∧
        ([Event.pulledRepo, Event.createdEmptyMarker "./repo/A",
          Event.readStatus, Event.stagedAll, Event.committed commitMessage,
          Event.pushed].count (Event.committed commitMessage) = 1) ∧
        ([Event.pulledRepo, Event.createdEmptyMarker "./repo/A",
          Event.readStatus, Event.stagedAll, Event.committed commitMessage,
          Event.pushed].count Event.pushed = 1)
    else
      Event.stagedAll ∉ [Event.pulledRepo, Event.createdEmptyMarker "./repo/A",
          Event.readStatus, Event.stagedAll, Event.committed commitMessage,
          Event.pushed] ∧
        (∀ m, Event.committed m ∉ [Event.pulledRepo,
          Event.createdEmptyMarker "./repo/A", Event.readStatus,
          Event.stagedAll, Event.committed commitMessage, Event.pushed]) ∧
        Event.pushed ∉ [Event.pulledRepo, Event.createdEmptyMarker "./repo/A",
          Event.readStatus, Event.stagedAll, Event.committed commitMessage,
          Event.pushed] :=
  runMain_commit_push_iff_dirty (fun _ => 0) "repo" "root"
    (RListing.ok (RItems.cons (RItem.folder "a" "A" (RListing.ok RItems.nil))
      RItems.nil)) true 1 0
    [Event.pulledRepo, Event.createdEmptyMarker "./repo/A", Event.readStatus,
      Event.stagedAll, Event.committed commitMessage, Event.pushed]
    rfl (by simp)

/-- C8: in any successful run with work to do, the status read happens only
after every work item of the walk has been applied — the trace splits as
`pre ++ readStatus :: post` where `pre` holds a write for every
`UPDATED_FILES` entry and a marker for every `EMPTY_FOLDERS` entry, and
`post` holds no write or marker event at all. -/
theorem runMain_status_read_after_all_writes (clock : Nat → Int)
    (repo rootId : String) (rootItems : RItems) (re : Bool) (u c : Nat)
    (st : WalkState) (evs : List Event)
    (hw : walkRoot clock repo rootItems initState = Except.ok st)
    (h : runMain clock repo rootId (RListing.ok rootItems) re u c =
      Except.ok evs)
    (hne : ¬(st.updatedFiles.length = 0 ∧ st.emptyFolders.length = 0)) :
    ∃ pre post, evs = pre ++ Event.readStatus :: post ∧
      (∀ f ∈ st.updatedFiles, Event.wroteFile f.path ∈ pre) ∧
      (∀ p ∈ st.emptyFolders, Event.createdEmptyMarker p ∈ pre) ∧
      ∀ e ∈ post, (∀ q, e ≠ Event.wroteFile q) ∧
        ∀ q, e ≠ Event.createdEmptyMarker q := by
  simp only [runMain, hw] at h
  rw [if_neg hne] at h
  injection h with h
  refine ⟨fetchRepoEvents re ++ (st.updatedFiles.map createFileEvents).flatten ++
      (st.emptyFolders.map createEmptyFolderEvents).flatten,
    (if u > 0 ∨ c > 0 then
      [Event.stagedAll, Event.committed commitMessage, Event.pushed]
    else []), ?_, ?_, ?_, ?_⟩
  · rw [← h, gitFinalizeEvents]
  · intro f hf
    simp only [List.mem_append]
    exact Or.inl (Or.inr (wroteFile_mem_flatten hf))
  · intro q hq
    simp only [List.mem_append]
    exact Or.inr (marker_mem_flatten hq)
  · intro e he
    by_cases hdirty : u > 0 ∨ c > 0
    · rw [if_pos hdirty] at he
      simp only [List.mem_cons, List.mem_singleton, List.not_mem_nil] at he
      rcases he with he | he | he | he <;> first
        | (subst he; exact ⟨fun q => by simp, fun q => by simp⟩)
        | cases he
    · rw [if_neg hdirty] at he
      simp at he

/-- Witness for C8: a dirty run over a root with one empty folder — the
status read sits after the marker creation, and the git tail holds no
write or marker. -/
theorem runMain_status_read_after_all_writes_concrete :
    ∃ pre post,
      [Event.clonedRepo, Event.createdEmptyMarker "./repo/A",
          Event.readStatus, Event.stagedAll, Event.committed commitMessage,
          Event.pushed] = pre ++ Event.readStatus :: post ∧
        (∀ f ∈ (WalkState.mk 0 [] ["./repo/A"]).updatedFiles,
          Event.wroteFile f.path ∈ pre) ∧
        (∀ p ∈ (WalkState.mk 0 [] ["./repo/A"]).emptyFolders,
          Event.createdEmptyMarker p ∈ pre) ∧
        ∀ e ∈ post, (∀ q, e ≠ Event.wroteFile q) ∧
          ∀ q, e ≠ Event.createdEmptyMarker q :=
  runMain_status_read_after_all_writes (fun _ => 0) "repo" "root"
    (RItems.cons (RItem.folder "a" "A" (RListing.ok RItems.nil)) RItems.nil)
    false 0 1 (WalkState.mk 0 [] ["./repo/A"])
    [Event.clonedRepo, Event.createdEmptyMarker "./repo/A", Event.readStatus,
      Event.stagedAll, Event.committed commitMessage, Event.pushed]
    rfl rfl (by simp)

/-- C9: when the listing of some folder reached by the walk raises, the run
aborts as a whole with an error carrying that folder's identifier — it never
reaches the repository phase, so no event trace (in particular no commit and
no push) is produced. -/
theorem runMain_listing_failure_aborts (clock : Nat → Int)
    (repo rootId : String) (rootItems : RItems) (re : Bool) (u c : Nat)
    (fid : String) (h : firstFailRoot rootItems = some fid) :
    runMain clock repo rootId (RListing.ok rootItems) re u c =
        Except.error fid ∧
      ∀ evs, runMain clock repo rootId (RListing.ok rootItems) re u c ≠
        Except.ok evs := by
  have hw := (walkRoot_error_iff clock repo rootItems initState fid).mpr h
  constructor
  · rw [runMain, hw]
  · intro evs hcon
    rw [runMain, hw] at hcon
    cases hcon

/-- Witness for C9: a run whose nested folder `B` has a raising listing
aborts with `B`'s identifier. -/
theorem runMain_listing_failure_aborts_concrete :
    runMain (fun _ => 0) "repo" "root"
        (RListing.ok (RItems.cons (RItem.folder "a" "A" (RListing.ok
          (RItems.cons (RItem.folder "bad" "B" RListing.fail) RItems.nil)))
          RItems.nil)) true 0 0 = Except.error "bad" ∧
      ∀ evs, runMain (fun _ => 0) "repo" "root"
        (RListing.ok (RItems.cons (RItem.folder "a" "A" (RListing.ok
          (RItems.cons (RItem.folder "bad" "B" RListing.fail) RItems.nil)))
          RItems.nil)) true 0 0 ≠ Except.ok evs :=
  runMain_listing_failure_aborts (fun _ => 0) "repo" "root"
    (RItems.cons (RItem.folder "a" "A" (RListing.ok
      (RItems.cons (RItem.folder "bad" "B" RListing.fail) RItems.nil)))
      RItems.nil) true 0 0 "bad" rfl

/-- C10: when the walk finds no fresh file and no empty folder, the run
returns before `fetch_repo` with an empty event trace — no clone, no pull,
no status read, no commit and no push. -/
theorem runMain_no_work_no_repo_touch (clock : Nat → Int)
    (repo rootId : String) (rootItems : RItems) (re : Bool) (u c : Nat)
    (st : WalkState)
    (hw : walkRoot clock repo rootItems initState = Except.ok st)
    (h1 : st.updatedFiles = []) (h2 : st.emptyFolders = []) :
    runMain clock repo rootId (RListing.ok rootItems) re u c =
      Except.ok [] := by
  simp only [runMain, hw]
  rw [if_pos ⟨by simp [h1], by simp [h2]⟩]

/-- Witness for C10: a root listing holding only a file child (which `main`
ignores) produces no work, and the run's trace is empty. -/
theorem runMain_no_work_no_repo_touch_concrete :
    runMain (fun _ => 0) "repo" "root"
      (RListing.ok (RItems.cons (RItem.file "i" "f.txt" 0 "t") RItems.nil))
      true 5 5 = Except.ok [] :=
  runMain_no_work_no_repo_touch (fun _ => 0) "repo" "root"
    (RItems.cons (RItem.file "i" "f.txt" 0 "t") RItems.nil) true 5 5
    initState rfl rfl rfl

end Goodnotes2Git
